import Mathlib

/-!
# Shallow embedding of `secret_santa.py` (cyberscribe/secret_santa)

Modelling choices, function by function:

* Python strings are `String`; a participant list is `List String`.
* A Python dict `partners` is an association list `List (String × String)`.
  Every dict reachable in the program has pairwise-distinct keys, and on such
  lists first-match lookup (`List.lookup`) agrees with dict lookup.
  `None` and the empty dict are both falsy in every use site of `partners`
  (`if partners:`, `if partners and p in partners:`), so both are modelled by
  the empty list.
* `random.random() < 0.5` in `partition_into_sets` is modelled by an explicit
  coin stream `coins : Nat → Bool` (`true` = the `< 0.5` branch); the k-th
  coin drives the k-th partnered pair encountered.
* `random.shuffle` in `create_secret_santa_cycle` is modelled by explicit
  shuffle parameters `shufA shufB : List String → List String`; theorems that
  need them to behave like shuffles hypothesise `(shuf l).Perm l`.
* `list(set(participants))` deduplicates with an order that CPython leaves
  unspecified (string hashing is randomized); it is modelled by `List.dedup`,
  one admissible order.  The inputs of all concrete evaluations below are
  duplicate-free, where every admissible order is a permutation of the input
  and `List.dedup` is the identity.
* `set(partners.keys()) | set(partners.values())` is modelled by
  `uniquePartners`; only its length and membership are ever used, which are
  order-independent.
* Python iterates `for partner in unique_partners:` over a set in an
  unspecified order; the model iterates the `uniquePartners` list.  Only the
  kind of the raised error is order-independent, and theorems about the
  unknown-partner error quantify the offending name existentially.
* `raise ValueError(...)` is modelled by `Except VError`; the three messages
  become the three `VError` constructors.
* The `print` warnings of `validate_and_deduplicate_inputs` are modelled by
  the two counts returned alongside the result (duplicate participants
  removed, duplicate partnerships removed); Python prints a warning exactly
  when the corresponding count is positive.
* Out-of-range list indexing (`set_a[-1]`, `set_b[0]`, ...) raises
  `IndexError` in Python; `create_secret_santa_cycle` therefore returns
  `Option`, with `none` for the states in which the Python code would raise
  (exactly: one of the two shuffled sets is empty; all remaining accesses are
  in bounds once both are non-empty).
-/

/-- The three `ValueError`s of `validate_and_deduplicate_inputs`. -/
inductive VError where
  | insufficientParticipants : VError
  | tooManyPartnerships : Nat → VError
  | unknownPartner : String → VError
deriving DecidableEq

/-- The loop of `partition_into_sets` (lines 22-41 of `secret_santa.py`):
iterate the participants, skip the already assigned ones, place a partnered
participant and its partner on the two sides chosen by a coin, place an
unpartnered one on the smaller (ties: `set_a`) side.  `k` counts the coins
consumed so far. -/
def partitionGo (partners : List (String × String)) (coins : Nat → Bool) :
    List String → Nat → List String → List String → List String →
    List String × List String
  | [], _, _, set_a, set_b => (set_a, set_b)
  | p :: ps, k, assigned, set_a, set_b =>
    if p ∈ assigned then
      partitionGo partners coins ps k assigned set_a set_b
    else
      match partners.lookup p with
      | some partner =>
        if coins k then
          partitionGo partners coins ps (k + 1) (p :: partner :: assigned)
            (set_a ++ [p]) (set_b ++ [partner])
        else
          partitionGo partners coins ps (k + 1) (p :: partner :: assigned)
            (set_a ++ [partner]) (set_b ++ [p])
      | none =>
        if set_a.length ≤ set_b.length then
          partitionGo partners coins ps k (p :: assigned) (set_a ++ [p]) set_b
        else
          partitionGo partners coins ps k (p :: assigned) set_a (set_b ++ [p])

/-- `partition_into_sets` (lines 14-43). -/
def partition_into_sets (participants : List String)
    (partners : List (String × String)) (coins : Nat → Bool) :
    List String × List String :=
  partitionGo partners coins participants 0 [] [] []

/-- The conflict-resolution loop of `create_secret_santa_cycle`
(lines 66-69 and 72-75): find the first index `i ≥ 1` whose element differs
from `avoid` and swap it with position 0; if there is none, leave the list
unchanged. -/
def swapIntoFront (l : List String) (avoid : String) : List String :=
  match l.tail.findIdx? (fun x => x != avoid) with
  | some j =>
    match l.head?, l.get? (j + 1) with
    | some a, some b => (l.set 0 b).set (j + 1) a
    | _, _ => l
  | none => l

/-- Steps 3-5 of `create_secret_santa_cycle` (lines 59-84) on the two
already-shuffled sets.  The seam endpoints `a_last`, `b_first`, `b_last`,
`a_first` are captured before either swap, exactly as in lines 61-62.
`partners.lookup x = some y` is `x in partners and partners[x] == y`; on an
empty `partners` both conditions are false, matching the `if partners:`
guard.  Inside the first branch `partners.get(a_last)` equals `b_first`
(and symmetrically), so the loop's comparison target is passed directly. -/
def assembleCycle (set_a set_b : List String)
    (partners : List (String × String)) : List (String × String) :=
  let a_last := set_a.getLastD ""
  let b_first := set_b.headD ""
  let b_last := set_b.getLastD ""
  let a_first := set_a.headD ""
  let set_b2 :=
    if partners.lookup a_last = some b_first then swapIntoFront set_b b_first
    else set_b
  let set_a2 :=
    if partners.lookup b_last = some a_first then swapIntoFront set_a a_first
    else set_a
  (set_a2.zip set_a2.tail)
    ++ [(set_a2.getLastD "", set_b2.headD ""), (set_b2.getLastD "", set_a2.headD "")]
    ++ (set_b2.zip set_b2.tail)

/-- `create_secret_santa_cycle` (lines 45-84).  Returns `none` exactly when
Python raises `IndexError`: one of the shuffled sets is empty (line 61 when
`partners` is truthy, line 82 otherwise). -/
def create_secret_santa_cycle (participants : List String)
    (partners : List (String × String)) (coins : Nat → Bool)
    (shufA shufB : List String → List String) :
    Option (List (String × String)) :=
  if (shufA (partition_into_sets participants partners coins).1).isEmpty
      || (shufB (partition_into_sets participants partners coins).2).isEmpty then
    none
  else
    some (assembleCycle
      (shufA (partition_into_sets participants partners coins).1)
      (shufB (partition_into_sets participants partners coins).2)
      partners)

/-- The partnership-deduplication loop of `validate_and_deduplicate_inputs`
(lines 101-104): keep `(p1, p2)` unless the reversed pair is already among
the kept items.  The accumulator is the `deduplicated_partners` dict; the
input dicts have pairwise-distinct keys, so appending is dict insertion. -/
def dedupPartnersGo : List (String × String) → List (String × String) →
    List (String × String)
  | [], acc => acc
  | (p1, p2) :: rest, acc =>
    if (p2, p1) ∈ acc then dedupPartnersGo rest acc
    else dedupPartnersGo rest (acc ++ [(p1, p2)])

/-- Lines 99-107.  Deduplicating the empty mapping is the identity, so the
`if partners:` guard around the loop is dropped. -/
def dedupPartners (partners : List (String × String)) :
    List (String × String) :=
  dedupPartnersGo partners []

/-- `set(partners.keys()) | set(partners.values())` (line 116): the distinct
identifiers occurring in the mapping, as a list. -/
def uniquePartners (partners : List (String × String)) : List String :=
  (partners.map Prod.fst ++ partners.map Prod.snd).dedup

/-- `validate_and_deduplicate_inputs` (lines 86-123).  Returns the
deduplicated participants, the deduplicated mapping, and the two
duplicate-removal counts (a warning is printed iff a count is positive). -/
def validate_and_deduplicate_inputs (participants : List String)
    (partners : List (String × String)) :
    Except VError (List String × List (String × String) × Nat × Nat) :=
  if participants.dedup.length ≤ 2 then
    .error .insufficientParticipants
  else if (dedupPartners partners).isEmpty then
    .ok (participants.dedup, dedupPartners partners,
      participants.length - participants.dedup.length,
      partners.length - (dedupPartners partners).length)
  else if (participants.dedup.length / 2) * 2
      < (uniquePartners (dedupPartners partners)).length then
    .error (.tooManyPartnerships (participants.dedup.length / 2))
  else
    match (uniquePartners (dedupPartners partners)).find?
        (fun q => !(participants.dedup.contains q)) with
    | some q => .error (.unknownPartner q)
    | none =>
      .ok (participants.dedup, dedupPartners partners,
        participants.length - participants.dedup.length,
        partners.length - (dedupPartners partners).length)

/-- No later kept pair is the reverse of an earlier kept pair. -/
def NoReversedPairs (l : List (String × String)) : Prop :=
  l.Pairwise (fun x y => y ≠ (x.2, x.1))

/-- The `try` block of `main` (lines 150-161): validate, then (only on
success) generate the cycle from the validated outputs. -/
def run (participants : List String) (partners : List (String × String))
    (coins : Nat → Bool) (shufA shufB : List String → List String) :
    Except VError (Option (List (String × String))) :=
  match validate_and_deduplicate_inputs participants partners with
  | .error e => .error e
  | .ok (ps, prs, _, _) =>
    .ok (create_secret_santa_cycle ps prs coins shufA shufB)

/-- Claim C1.  Refuted by evaluation: the input below is accepted by
`validate_and_deduplicate_inputs` (three distinct participants, one
partnership wholly inside the list, no duplicates, so validation returns it
unchanged), the coin stream and shuffles are legitimate behaviours of the
random source, yet `"B"` occurs twice as giver (and twice as receiver) in
the produced edge list while the claim requires exactly once.  The cause:
the mapping stores only the direction `("A", "B")`, `partition_into_sets`
recognises a participant as partnered only when it is a key, so `"B"` is
first placed as unpartnered and later appended a second time as the partner
of `"A"`. -/
theorem c1_duplicated_giver_on_valid_input :
    validate_and_deduplicate_inputs ["B", "A", "C"] [("A", "B")] =
      .ok (["B", "A", "C"], [("A", "B")], 0, 0) ∧
    run ["B", "A", "C"] [("A", "B")] (fun _ => true) id id =
      .ok (some [("B", "A"), ("A", "C"), ("B", "B"), ("C", "B")]) ∧
    ([("B", "A"), ("A", "C"), ("B", "B"), ("C", "B")].countP
      (fun e => e.1 == "B")) = 2 ∧
    ([("B", "A"), ("A", "C"), ("B", "B"), ("C", "B")].countP
      (fun e => e.2 == "B")) = 2 :=
  ⟨rfl, rfl, rfl, rfl⟩

/-- Claim C2.  Refuted by evaluation: the input below is accepted by
validation unchanged, both groups produced by `partition_into_sets` have
size 2, yet the edge list contains `("A1", "B2")` and `("B1", "A2")`,
the reverses of the two stored partnerships.  Both seams conflict after the
shuffles; each swap repairs its own seam but moves the conflicting elements
to the opposite seam, so the two cross edges are exactly the two forbidden
couples. -/
theorem c2_partner_edges_survive_resolution :
    validate_and_deduplicate_inputs ["A2", "B2", "B1", "A1"]
        [("A2", "B1"), ("B2", "A1")] =
      .ok (["A2", "B2", "B1", "A1"], [("A2", "B1"), ("B2", "A1")], 0, 0) ∧
    (partition_into_sets ["A2", "B2", "B1", "A1"] [("A2", "B1"), ("B2", "A1")]
      (fun k => k == 0)) = (["A2", "A1"], ["B1", "B2"]) ∧
    run ["A2", "B2", "B1", "A1"] [("A2", "B1"), ("B2", "A1")]
        (fun k => k == 0) List.reverse id =
      .ok (some [("A2", "A1"), ("A1", "B2"), ("B1", "A2"), ("B2", "B1")]) :=
  ⟨rfl, rfl, rfl⟩

/-- Claim C3.  Refuted by evaluation: the input below is accepted by
validation unchanged, yet the edge list contains the self-edge
`("B", "B")`.  Same root cause as C1: `"B"` is placed twice (once as
unpartnered, once as the stored partner of `"A"`), ends both sets, and the
second cross edge links the two copies. -/
theorem c3_self_edge_on_valid_input :
    validate_and_deduplicate_inputs ["B", "A", "C"] [("A", "B")] =
      .ok (["B", "A", "C"], [("A", "B")], 0, 0) ∧
    run ["B", "A", "C"] [("A", "B")] (fun _ => true) List.reverse id =
      .ok (some [("A", "B"), ("B", "B"), ("C", "A"), ("B", "C")]) ∧
    ([("A", "B"), ("B", "B"), ("C", "A"), ("B", "C")].any
      (fun e => e.1 == e.2)) = true :=
  ⟨rfl, rfl, rfl⟩

/-- Claim C4.  Refuted by evaluation: on the accepted input below,
`partition_into_sets` returns `(["B", "A"], ["B", "C"])`: the two groups
share `"B"` (not disjoint, and their union lists `"B"` twice), and the
partnership `("A", "B")` has both members inside the first group. -/
theorem c4_partition_invariants_violated :
    validate_and_deduplicate_inputs ["B", "A", "C"] [("A", "B")] =
      .ok (["B", "A", "C"], [("A", "B")], 0, 0) ∧
    partition_into_sets ["B", "A", "C"] [("A", "B")] (fun _ => true) =
      (["B", "A"], ["B", "C"]) ∧
    ("B" ∈ (["B", "A"] : List String) ∧ "B" ∈ (["B", "C"] : List String)) ∧
    ("A" ∈ (["B", "A"] : List String) ∧ "B" ∈ (["B", "A"] : List String)) :=
  ⟨rfl, rfl, by decide, by decide⟩

/-- Claim C6: whenever validation raises an error, the whole run aborts with
that error and no cycle — not even a partial one — is produced. -/
theorem c6_error_aborts_run (participants : List String)
    (partners : List (String × String)) (coins : Nat → Bool)
    (shufA shufB : List String → List String) (e : VError)
    (h : validate_and_deduplicate_inputs participants partners = .error e) :
    run participants partners coins shufA shufB = .error e := by
  simp [run, h]

/-- Witness for C6 at a concrete input. -/
theorem c6_error_aborts_run_witness :
    run ["A", "B"] [] (fun _ => true) id id =
      .error .insufficientParticipants :=
  c6_error_aborts_run ["A", "B"] [] (fun _ => true) id id
    .insufficientParticipants rfl

/-- Claim C7: `validate_and_deduplicate_inputs` raises the
insufficient-participants error iff the number of distinct participants
after deduplication is fewer than 3 (the code tests `len(participants) <= 2`
on the deduplicated list, before any partnership check). -/
theorem c7_insufficient_iff_lt_three (participants : List String)
    (partners : List (String × String)) :
    validate_and_deduplicate_inputs participants partners =
      .error .insufficientParticipants ↔
    participants.dedup.length < 3 := by
  unfold validate_and_deduplicate_inputs
  by_cases h : participants.dedup.length ≤ 2
  · simp [h]; omega
  · rw [if_neg h]
    constructor
    · intro hc
      split at hc
      · simp at hc
      · split at hc
        · simp at hc
        · split at hc <;> simp at hc
    · intro hlt; omega

/-- Claim C9: given at least 3 distinct participants, the
too-many-partnerships error (whose payload is `len(participants) // 2`) is
raised iff the number of distinct individuals in the deduplicated mapping
exceeds `2 * (len(participants) // 2)`. -/
theorem c9_too_many_partnerships_iff (participants : List String)
    (partners : List (String × String))
    (h3 : 2 < participants.dedup.length) :
    validate_and_deduplicate_inputs participants partners =
      .error (.tooManyPartnerships (participants.dedup.length / 2)) ↔
    (participants.dedup.length / 2) * 2
      < (uniquePartners (dedupPartners partners)).length := by
  unfold validate_and_deduplicate_inputs
  rw [if_neg (by omega)]
  by_cases hd : (dedupPartners partners).isEmpty
  · rw [if_pos hd]
    simp [List.isEmpty_iff.mp hd, uniquePartners]
  · rw [if_neg hd]
    by_cases ht : (participants.dedup.length / 2) * 2
        < (uniquePartners (dedupPartners partners)).length
    · rw [if_pos ht]
      simp [ht]
    · rw [if_neg ht]
      split <;> simp [ht]

/-- Witness for C9: `["A","B","C"]` with partnerships `A-B` and `C-D`
involves 4 distinct partnered individuals, more than `2 * (3 // 2) = 2`. -/
theorem c9_too_many_partnerships_iff_witness :
    2 < (["A", "B", "C"] : List String).dedup.length ∧
    (validate_and_deduplicate_inputs ["A", "B", "C"] [("A", "B"), ("C", "D")] =
        .error (.tooManyPartnerships ((["A", "B", "C"] : List String).dedup.length / 2)) ↔
      ((["A", "B", "C"] : List String).dedup.length / 2) * 2
        < (uniquePartners (dedupPartners [("A", "B"), ("C", "D")])).length) :=
  ⟨by decide, c9_too_many_partnerships_iff ["A", "B", "C"]
    [("A", "B"), ("C", "D")] (by decide)⟩

/-- Claim C8: given at least 3 distinct participants and a partnership
count within the structural maximum, the unknown-partner error is raised
iff some identifier of the deduplicated mapping (key or value) is missing
from the (deduplicated) participant list. -/
theorem c8_unknown_partner_iff (participants : List String)
    (partners : List (String × String))
    (h3 : 2 < participants.dedup.length)
    (hmax : (uniquePartners (dedupPartners partners)).length
      ≤ (participants.dedup.length / 2) * 2) :
    (∃ q, validate_and_deduplicate_inputs participants partners =
      .error (.unknownPartner q)) ↔
    (∃ q ∈ uniquePartners (dedupPartners partners),
      q ∉ participants.dedup) := by
  unfold validate_and_deduplicate_inputs
  rw [if_neg (by omega)]
  by_cases hd : (dedupPartners partners).isEmpty
  · rw [if_pos hd]
    simp [List.isEmpty_iff.mp hd, uniquePartners]
  · rw [if_neg hd, if_neg (by omega)]
    cases hfind : (uniquePartners (dedupPartners partners)).find?
        (fun q => !(participants.dedup.contains q)) with
    | none =>
      simp only [hfind]
      constructor
      · rintro ⟨q, hq⟩; simp at hq
      · rintro ⟨q, hqmem, hqnot⟩
        have := List.find?_eq_none.mp hfind q hqmem
        simp [List.contains, List.elem_iff] at this
        exact absurd (List.mem_dedup.mpr this) hqnot
    | some q =>
      simp only [hfind]
      constructor
      · intro _
        refine ⟨q, List.mem_of_find?_eq_some hfind, ?_⟩
        have := List.find?_some hfind
        simp [List.contains, List.elem_iff] at this
        exact fun hmem => this (List.mem_dedup.mp hmem)
      · intro _
        exact ⟨q, rfl⟩

/-- Witness for C8: partner `"Dave"` is not in the participant list. -/
theorem c8_unknown_partner_iff_witness :
    2 < (["Alice", "Bob", "Carol"] : List String).dedup.length ∧
    (uniquePartners (dedupPartners [("Alice", "Dave")])).length
      ≤ ((["Alice", "Bob", "Carol"] : List String).dedup.length / 2) * 2 ∧
    ((∃ q, validate_and_deduplicate_inputs ["Alice", "Bob", "Carol"]
        [("Alice", "Dave")] = .error (.unknownPartner q)) ↔
      (∃ q ∈ uniquePartners (dedupPartners [("Alice", "Dave")]),
        q ∉ (["Alice", "Bob", "Carol"] : List String).dedup)) :=
  ⟨by decide, by decide, c8_unknown_partner_iff ["Alice", "Bob", "Carol"]
    [("Alice", "Dave")] (by decide) (by decide)⟩

theorem dedupPartnersGo_pairwise (l : List (String × String)) :
    ∀ acc, NoReversedPairs acc → NoReversedPairs (dedupPartnersGo l acc) := by
  induction l with
  | nil => intro acc hacc; exact hacc
  | cons hd tl ih =>
    intro acc hacc
    obtain ⟨p1, p2⟩ := hd
    by_cases hmem : (p2, p1) ∈ acc
    · simpa [dedupPartnersGo, hmem] using ih acc hacc
    · have hacc' : NoReversedPairs (acc ++ [(p1, p2)]) := by
        refine List.pairwise_append.mpr ⟨hacc, by simp [NoReversedPairs], ?_⟩
        intro a ha b hb
        simp only [List.mem_singleton] at hb
        subst hb
        intro heq
        apply hmem
        have h1 : a.2 = p1 := (congrArg Prod.fst heq).symm
        have h2 : a.1 = p2 := (congrArg Prod.snd heq).symm
        have : a = (p2, p1) := Prod.ext h2 h1
        rwa [this] at ha
      simpa [dedupPartnersGo, hmem] using ih (acc ++ [(p1, p2)]) hacc'

theorem dedupPartnersGo_no_reversed (l : List (String × String)) :
    ∀ acc, NoReversedPairs l → (∀ x ∈ l, (x.2, x.1) ∉ acc) →
      dedupPartnersGo l acc = acc ++ l := by
  induction l with
  | nil => intro acc _ _; simp [dedupPartnersGo]
  | cons hd tl ih =>
    intro acc hl hacc
    obtain ⟨p1, p2⟩ := hd
    have hmem : (p2, p1) ∉ acc := hacc (p1, p2) (List.mem_cons_self _ _)
    rw [NoReversedPairs, List.pairwise_cons] at hl
    have htl : dedupPartnersGo tl (acc ++ [(p1, p2)]) =
        (acc ++ [(p1, p2)]) ++ tl := by
      refine ih (acc ++ [(p1, p2)]) hl.2 ?_
      intro x hx
      intro hcontra
      rcases List.mem_append.mp hcontra with hic | hic
      · exact hacc x (List.mem_cons_of_mem _ hx) hic
      · simp only [List.mem_singleton] at hic
        apply hl.1 x hx
        have h1 : x.2 = p1 := congrArg Prod.fst hic
        have h2 : x.1 = p2 := congrArg Prod.snd hic
        exact Prod.ext h2 h1
    simp only [dedupPartnersGo, if_neg hmem, htl]
    simp

/-- Deduplicating partnerships twice is the same as once. -/
theorem dedupPartners_idem (l : List (String × String)) :
    dedupPartners (dedupPartners l) = dedupPartners l := by
  have h1 : NoReversedPairs (dedupPartners l) :=
    dedupPartnersGo_pairwise l [] (by simp [NoReversedPairs])
  have h2 := dedupPartnersGo_no_reversed (dedupPartners l) [] h1 (by simp)
  simpa [dedupPartners] using h2

/-- Claim C5: validation is idempotent.  Re-running
`validate_and_deduplicate_inputs` on its own output removes nothing (both
warning counts are zero, so no warning is printed) and returns exactly the
same participant list and partnership mapping. -/
theorem c5_validate_idempotent (participants qs : List String)
    (partners d : List (String × String)) (wp wq : Nat)
    (h : validate_and_deduplicate_inputs participants partners =
      .ok (qs, d, wp, wq)) :
    validate_and_deduplicate_inputs qs d = .ok (qs, d, 0, 0) := by
  unfold validate_and_deduplicate_inputs at h ⊢
  split at h
  · exact absurd h (by simp)
  next h2 =>
    have hnd : ∀ zs : List String, zs.dedup.dedup = zs.dedup := fun zs =>
      List.dedup_eq_self.mpr (List.nodup_dedup zs)
    split at h
    next hempty =>
      simp only [Except.ok.injEq, Prod.mk.injEq] at h
      obtain ⟨h1, h3, _, _⟩ := h
      subst h1; subst h3
      rw [hnd participants, dedupPartners_idem partners]
      rw [if_neg h2, if_pos hempty]
      simp
    next hempty =>
      split at h
      · exact absurd h (by simp)
      next htoomany =>
        split at h
        · exact absurd h (by simp)
        next hfind =>
          simp only [Except.ok.injEq, Prod.mk.injEq] at h
          obtain ⟨h1, h3, _, _⟩ := h
          subst h1; subst h3
          rw [hnd participants, dedupPartners_idem partners]
          rw [if_neg h2, if_neg hempty, if_neg htoomany, hfind]
          simp

/-- Witness for C5 at a concrete accepted input. -/
theorem c5_validate_idempotent_witness :
    validate_and_deduplicate_inputs ["A", "B", "C"] [("A", "B")] =
      .ok (["A", "B", "C"], [("A", "B")], 0, 0) :=
  c5_validate_idempotent ["A", "B", "C"] ["A", "B", "C"]
    [("A", "B")] [("A", "B")] 0 0 rfl

/-- The partition loop never empties a set: once both sides are non-empty
they stay non-empty. -/
theorem partitionGo_ne_nil (partners : List (String × String))
    (coins : Nat → Bool) :
    ∀ (ps : List String) (k : Nat) (assigned set_a set_b : List String),
      set_a ≠ [] → set_b ≠ [] →
      (partitionGo partners coins ps k assigned set_a set_b).1 ≠ [] ∧
      (partitionGo partners coins ps k assigned set_a set_b).2 ≠ [] := by
  intro ps
  induction ps with
  | nil => intro k assigned sa sb ha hb; exact ⟨ha, hb⟩
  | cons p t ih =>
    intro k assigned sa sb ha hb
    simp only [partitionGo]
    split
    · exact ih k assigned sa sb ha hb
    · split
      · split
        · exact ih _ _ _ _ (by simp) (by simp)
        · exact ih _ _ _ _ (by simp) (by simp)
      · split
        · exact ih _ _ _ _ (by simp) hb
        · exact ih _ _ _ _ ha (by simp)

/-- If some still-unassigned participant remains and one side is already
non-empty, the loop ends with both sides non-empty. -/
theorem partitionGo_reaches (partners : List (String × String))
    (coins : Nat → Bool) :
    ∀ (ps : List String) (k : Nat) (assigned set_a set_b : List String),
      (∃ q ∈ ps, q ∉ assigned) → (set_a ≠ [] ∨ set_b ≠ []) →
      (partitionGo partners coins ps k assigned set_a set_b).1 ≠ [] ∧
      (partitionGo partners coins ps k assigned set_a set_b).2 ≠ [] := by
  intro ps
  induction ps with
  | nil => rintro k assigned sa sb ⟨q, hq, _⟩ _; simp at hq
  | cons p t ih =>
    rintro k assigned sa sb ⟨q, hq, hqa⟩ hor
    simp only [partitionGo]
    split
    next hp =>
      have hqt : q ∈ t := by
        rcases List.mem_cons.mp hq with hqp | hqt
        · exact absurd (hqp ▸ hp) hqa
        · exact hqt
      exact ih k assigned sa sb ⟨q, hqt, hqa⟩ hor
    next hp =>
      split
      · split
        · exact partitionGo_ne_nil partners coins t _ _ _ _ (by simp) (by simp)
        · exact partitionGo_ne_nil partners coins t _ _ _ _ (by simp) (by simp)
      · split
        next hle =>
          by_cases hsb : sb = []
          · rcases hor with hsa | hsb'
            · exfalso
              rw [hsb] at hle
              simp only [List.length_nil, Nat.le_zero, List.length_eq_zero] at hle
              exact hsa hle
            · exact absurd hsb hsb'
          · exact partitionGo_ne_nil partners coins t _ _ _ _ (by simp) hsb
        next hgt =>
          have hsa : sa ≠ [] := by
            intro hnil
            rw [hnil] at hgt
            simp at hgt
          exact partitionGo_ne_nil partners coins t _ _ _ _ hsa (by simp)

/-- With at least two distinct participants, both partition sides end
non-empty: the first placement fills one side and a later distinct
participant (or the first partnered pair) fills the other. -/
theorem partition_into_sets_ne_nil (participants : List String)
    (partners : List (String × String)) (coins : Nat → Bool)
    (hlen : 2 ≤ participants.length) (hnd : participants.Nodup) :
    (partition_into_sets participants partners coins).1 ≠ [] ∧
    (partition_into_sets participants partners coins).2 ≠ [] := by
  match participants, hlen, hnd with
  | p :: r :: t, _, hnd =>
    have hpr : p ≠ r := by
      have := (List.nodup_cons.mp hnd).1
      simp only [List.mem_cons] at this
      exact fun h => this (Or.inl h)
    unfold partition_into_sets
    rw [partitionGo]
    rw [if_neg (List.not_mem_nil p)]
    split
    · split
      · refine partitionGo_ne_nil partners coins _ _ _ _ _ ?_ ?_ <;> simp
      · refine partitionGo_ne_nil partners coins _ _ _ _ _ ?_ ?_ <;> simp
    · split
      · refine partitionGo_reaches partners coins _ _ _ _ _ ⟨r, by simp, ?_⟩
          (Or.inl (by simp))
        simp [hpr.symm]
      · next hcontra => exact absurd (Nat.le_refl _) hcontra

/-- Inversion for an accepted validation: the returned participant list is
the deduplicated input and has more than 2 elements. -/
theorem validate_ok_participants (participants qs : List String)
    (partners d : List (String × String)) (wp wq : Nat)
    (h : validate_and_deduplicate_inputs participants partners =
      .ok (qs, d, wp, wq)) :
    qs = participants.dedup ∧ 2 < qs.length := by
  unfold validate_and_deduplicate_inputs at h
  split at h
  · exact absurd h (by simp)
  next h2 =>
    split at h
    · simp only [Except.ok.injEq, Prod.mk.injEq] at h
      exact ⟨h.1.symm, by rw [← h.1]; omega⟩
    · split at h
      · exact absurd h (by simp)
      · split at h
        · exact absurd h (by simp)
        · simp only [Except.ok.injEq, Prod.mk.injEq] at h
          exact ⟨h.1.symm, by rw [← h.1]; omega⟩

/-- Claim C10: on any input accepted by validation, both partition sides
are non-empty, and `create_secret_santa_cycle` (whose `none` result models
exactly the out-of-bounds accesses the Python code could make) succeeds:
every index it uses is in bounds. -/
theorem c10_partition_nonempty_create_total (participants qs : List String)
    (partners d : List (String × String)) (wp wq : Nat)
    (coins : Nat → Bool) (shufA shufB : List String → List String)
    (hA : ∀ l, (shufA l).Perm l) (hB : ∀ l, (shufB l).Perm l)
    (h : validate_and_deduplicate_inputs participants partners =
      .ok (qs, d, wp, wq)) :
    ((partition_into_sets qs d coins).1 ≠ [] ∧
      (partition_into_sets qs d coins).2 ≠ []) ∧
    (create_secret_santa_cycle qs d coins shufA shufB).isSome = true := by
  obtain ⟨hq, hlen⟩ := validate_ok_participants participants qs partners d wp wq h
  have hnd : qs.Nodup := hq ▸ List.nodup_dedup participants
  have hpart := partition_into_sets_ne_nil qs d coins (by omega) hnd
  refine ⟨hpart, ?_⟩
  have hAne : shufA (partition_into_sets qs d coins).1 ≠ [] := by
    intro hcontra
    have hperm := hA (partition_into_sets qs d coins).1
    rw [hcontra] at hperm
    exact hpart.1 (hperm.symm.eq_nil)
  have hBne : shufB (partition_into_sets qs d coins).2 ≠ [] := by
    intro hcontra
    have hperm := hB (partition_into_sets qs d coins).2
    rw [hcontra] at hperm
    exact hpart.2 (hperm.symm.eq_nil)
  unfold create_secret_santa_cycle
  rw [if_neg (by simp [List.isEmpty_iff, hAne, hBne])]
  rfl

/-- Witness for C10 at a concrete accepted input. -/
theorem c10_partition_nonempty_create_total_witness :
    (((partition_into_sets ["A", "B", "C"] [] (fun _ => true)).1 ≠ [] ∧
      (partition_into_sets ["A", "B", "C"] [] (fun _ => true)).2 ≠ []) ∧
    (create_secret_santa_cycle ["A", "B", "C"] [] (fun _ => true) id id).isSome
      = true) :=
  c10_partition_nonempty_create_total ["A", "B", "C"] ["A", "B", "C"] [] [] 0 0
    (fun _ => true) id id (fun l => List.Perm.refl l) (fun l => List.Perm.refl l)
    rfl
